import Mathlib

/-!
Shallow embedding of the clonechat replication engine
(src/utils/telegram/abstract.py, src/utils/telegram/message.py,
src/utils/telegram/targets.py, src/clonechat.py), together with theorems
settling the frozen claims about its specification.

Conventions: effectful Python methods become Lean functions that return an
explicit trace of the side effects they perform (network calls, filesystem
operations, SQL inserts), plus an exception marker. External collaborators
(the pyrogram client, the filesystem) are modelled by explicit environment
parameters; their behaviour per call is given by `Env` fields. Recursive
retry (TgChat.send_message catching ValueError) is made total with a fuel
parameter; running out of fuel is reported as the distinguished marker
`SendExc.fuelOut`, so divergence of the source is visible as
`fuelOut` at every fuel.
-/

namespace Clonechat

/-- Media object attributes read by the code: `kind` is the value string of
the pyrogram MessageMediaType enum (`tg_message.media.value`), while
`file_name` and `media_type` are the attributes `base.get_filename` looks
up with `getattr(..., None)` defaults. -/
structure Media where
  kind : String
  file_name : Option String := none
  media_type : Option String := none
  deriving DecidableEq, Repr

/-- Pyrogram Message fields read by targets.py: `id`, the `service` flag
(truthy for service messages), optional `media` and optional `text`. -/
structure Msg where
  id : Nat
  service : Bool := false
  media : Option Media := none
  text : Option String := none
  deriving DecidableEq, Repr

/-- UniversalMessage (src/utils/telegram/message.py) fields used by
delivery: provenance chat id, message id, the wrapped pyrogram message
(None possible), and the `can_forward` flag. -/
structure UMsg where
  chat_id : Int
  message_id : Nat
  message : Option Msg
  can_forward : Bool
  deriving DecidableEq, Repr

/-- Row of the TgChat `messages` table
(TgChat._create_initial_schema, targets.py lines 25-38). Rows are kept in
insertion order; `added_at` ordering is modelled by list position. -/
structure Record where
  input_chat_id : Int
  input_message_id : Nat
  output_chat_id : Int
  output_message_id : Nat
  deriving DecidableEq, Repr

/-- Modelled from the spec: the `constants` module (not under src/)
provides `MEDIA_TYPES`, the default media-kind allow-list, "a small fixed
enumeration" of kinds {photo, document, audio, video, sticker, ...}. -/
def MEDIA_TYPES : List String :=
  ["photo", "video", "document", "audio", "voice", "sticker", "animation", "video_note"]

/-- The `extra_configs` keyword dictionary consumed by Target.__init__
(only the keys it reads). -/
structure ExtraConfigs where
  forward_messages : Option Bool := none
  reverse_messages : Option Bool := none
  send_text_messages : Option Bool := none
  media_types : Option (List String) := none
  deriving Repr

/-- Configuration attributes set by Target.__init__
(abstract.py lines 22-28). -/
structure TargetCfg where
  forward_messages : Bool
  reverse_messages : Bool
  send_text_messages : Bool
  media_types : List String
  deriving DecidableEq, Repr

/-- Target.__init__ (abstract.py lines 22-28): each attribute is
`extra_configs.get(key, default)`; `send_text_messages` defaults to
False and `media_types` defaults to MEDIA_TYPES. -/
def Target.initCfg (e : ExtraConfigs) : TargetCfg :=
  { forward_messages := e.forward_messages.getD false
    reverse_messages := e.reverse_messages.getD false
    send_text_messages := e.send_text_messages.getD false
    media_types := e.media_types.getD MEDIA_TYPES }

/-- TgChat.__init__ (targets.py lines 16-23):
`can_forward = not chat_entity.has_protected_content` and
`self.forward_messages = self.forward_messages and can_forward`.
This is the only place forwardability is decided; it is computed before
any delivery and is never written back anywhere. -/
def TgChat.initForward (requested : Bool) (has_protected_content : Bool) : Bool :=
  requested && !has_protected_content

/-- base.get_filename: `getattr(media, "file_name", None)` or
`"Unknown." + getattr(media, "media_type", "jpg").split("/")[0]`; the
first component of split("/") is the run of characters before the first
slash. -/
def get_filename (file_name : Option String) (media_type : Option String) : String :=
  let mt := ((media_type.getD "jpg").toList.takeWhile fun c => c ≠ '/').asString
  match file_name with
  | some n => n
  | none => "Unknown." ++ mt

/-- TgChat._get_universal_message on a native pyrogram Message
(targets.py lines 59-73): wraps it with `retrieve=False`, keeping the
message and setting `can_forward = self.forward_messages`. -/
def TgChat.getUniversalMessage (chatId : Int) (forward_messages : Bool) (m : Msg) : UMsg :=
  { chat_id := chatId
    message_id := m.id
    message := some m
    can_forward := forward_messages }

/-- TgChat.__insert_sent_message (targets.py lines 98-108): the row
inserted into the `messages` table of the output target
(`self.target_id` is the output chat). -/
def insertSentRecord (outChat : Int) (original : UMsg) (sentId : Nat) : Record :=
  { input_chat_id := original.chat_id
    input_message_id := original.message_id
    output_chat_id := outChat
    output_message_id := sentId }

/-- Observable side effects of one TgChat.send_message call, in program
order. `download` carries whether the client produced a file;
`sendMedia` carries the kwargs the code passes to the
`send_{media_type}` primitive (caption and optional file_name). -/
inductive Effect where
  | copy
  | mkdirScratch (msgId : Nat)
  | download (msgId : Nat) (ok : Bool)
  | sendMedia (kind : String) (caption : Option String) (fileName : Option String)
  | sendText (text : Option String)
  | removeScratchFiles (msgId : Nat)
  | rmdirScratch (msgId : Nat)
  | insert (r : Record)
  deriving DecidableEq, Repr

/-- Result of `client.copy_message`: it can raise, return a non-Message
value (list, for media groups), or return a Message with an id. -/
inductive CopyRes where
  | raised
  | notMessage
  | ok (sentId : Nat)
  deriving DecidableEq, Repr

/-- Result of the `send_{media_type}` primitive: success with the sent
message id, a ValueError (the only exception the code catches), or any
other exception. -/
inductive SendRes where
  | ok (sentId : Nat)
  | valueError
  | raised
  deriving DecidableEq, Repr

/-- Exceptional exits of send_message. `fuelOut` marks that the modelled
recursion exceeded the available fuel (the source recursion at
targets.py lines 171-177 has no such bound). -/
inductive SendExc where
  | raisedCopy
  | raisedSend
  | fuelOut
  deriving DecidableEq, Repr

/-- Per-message behaviour of the external pyrogram client during one
delivery: deterministic responses of copy_message, download_media
(some path when it returns a str), the media send primitive, and
send_message for plain text. -/
structure Env where
  copyRes : CopyRes
  downloadRes : Option String
  sendRes : SendRes
  sendTextId : Nat
  deriving Repr

/-- The file_name keyword of the send call: the code sets
`kwargs["file_name"]` only when the media type is not photo, audio or
sticker. -/
def sendFileName (kind : String) (path : String) : Option String :=
  if kind ∈ ["photo", "audio", "sticker"] then none else some path

/-- TgChat.send_message (targets.py lines 110-186), as a trace
transformer. Faithful branch order: missing message short-circuits;
`can_forward` leads to copy_message with no exception handling and an
insert only when a Message comes back; otherwise the scratch directory
`chats/{output}/{msgid}` is created unconditionally; with media the code
downloads (on failure it logs and returns, leaving the directory),
passes `caption=tg_message.text` always and `file_name` unless the kind
is photo, audio or sticker, catches only ValueError by recursively
re-running the whole method, and removes the scratch files and directory
only after a successful send, then inserts the correlation row. Text
messages are sent unconditionally (self.send_text_messages and
self.media_types are never consulted). -/
def sendMessageF : Nat → Int → Env → UMsg → List Effect × Option SendExc
  | 0, _, _, _ => ([], some .fuelOut)
  | fuel + 1, outChat, env, um =>
    match um.message with
    | none => ([], none)
    | some tg =>
      if um.can_forward then
        match env.copyRes with
        | .raised => ([.copy], some .raisedCopy)
        | .notMessage => ([.copy], none)
        | .ok sid => ([.copy, .insert (insertSentRecord outChat um sid)], none)
      else
        match tg.media with
        | some media =>
          match env.downloadRes with
          | none => ([.mkdirScratch tg.id, .download tg.id false], none)
          | some path =>
            let pre := [Effect.mkdirScratch tg.id, Effect.download tg.id true,
              Effect.sendMedia media.kind tg.text (sendFileName media.kind path)]
            match env.sendRes with
            | .raised => (pre, some .raisedSend)
            | .valueError =>
              let rest := sendMessageF fuel outChat env um
              (pre ++ rest.1, rest.2)
            | .ok sid =>
              (pre ++ [Effect.removeScratchFiles tg.id, Effect.rmdirScratch tg.id,
                Effect.insert (insertSentRecord outChat um sid)], none)
        | none =>
          ([.mkdirScratch tg.id, .sendText tg.text,
            .insert (insertSentRecord outChat um env.sendTextId)], none)

/-- Correlation rows inserted along a trace, in order. -/
def recordsOf (fx : List Effect) : List Record :=
  fx.filterMap fun e =>
    match e with
    | .insert r => some r
    | _ => none

/-- Number of media send attempts in a trace. -/
def countSendMedia (fx : List Effect) : Nat :=
  fx.countP fun e =>
    match e with
    | .sendMedia _ _ _ => true
    | _ => false

/-- Whether the per-message scratch directory exists after replaying a
trace (created by mkdir, destroyed by rmdir). -/
def scratchDirAfter (fx : List Effect) : Bool :=
  fx.foldl
    (fun b e =>
      match e with
      | .mkdirScratch _ => true
      | .rmdirScratch _ => false
      | _ => b)
    false

/-- Number of files in the per-message scratch directory after a trace:
each successful download adds one, the cleanup loop removes all. -/
def scratchFilesAfter (fx : List Effect) : Nat :=
  fx.foldl
    (fun n e =>
      match e with
      | .download _ true => n + 1
      | .removeScratchFiles _ => 0
      | _ => n)
    0

/-- Resume-point query of TgChat.iter_messages (targets.py lines 77-87):
`select input_message_id from messages where input_chat_id = ? order by
added_at desc limit 1`, defaulting to 0 when no row matches. The store
is kept in insertion order, so the most recently inserted matching row
is the last matching element; note the query never looks at
`output_chat_id`. -/
def lastSentMessageId (store : List Record) (inChat : Int) : Nat :=
  match (store.filter fun r => r.input_chat_id == inChat).getLast? with
  | some r => r.input_message_id
  | none => 0

/-- Pyrogram Client.get_chat_history(chat, offset_id): external
collaborator, modelled per its documented behaviour: history is
returned newest-first, and a nonzero offset_id restricts it to messages
with id strictly below offset_id. `history` is the full chat history,
newest first. -/
def get_chat_history (history : List Msg) (offset_id : Nat) : List Msg :=
  if offset_id == 0 then history else history.filter fun m => m.id < offset_id

/-- TgChat.iter_messages (targets.py lines 76-96): computes the resume
point, asks get_chat_history with it as offset_id, and yields every
non-service message (messages with a truthy `service` attribute are
skipped with `continue`). The `reverse_messages` flag is never applied
(the TODO at line 88). -/
def TgChat.iterMessages (store : List Record) (inChat : Int) (history : List Msg) : List Msg :=
  (get_chat_history history (lastSentMessageId store inChat)).filter fun m => !m.service

/-- Parameters of one engine run (CloneChat.clone): fuel for the
modelled recursion, the shared extra_configs of both targets, the input
and output chat ids, the input chat's has_protected_content flag, the
deterministic per-message client behaviour, and the source chat's full
history (newest first). -/
structure RunParams where
  fuel : Nat
  cfg : TargetCfg
  inChat : Int
  outChat : Int
  inputProtected : Bool
  envOf : Msg → Env
  history : List Msg

/-- Message loop of CloneChat.__clone_messages: sends each yielded
message through the output target, accumulating inserted rows; an
exception escaping send_message aborts the run (the Bool is true iff
the run completed). -/
def processMsgs (fuel : Nat) (outChat : Int) (inChat : Int) (canFwd : Bool)
    (envOf : Msg → Env) : List Record → List Msg → List Record × Bool
  | store, [] => (store, true)
  | store, m :: rest =>
    let res := sendMessageF fuel outChat (envOf m) (TgChat.getUniversalMessage inChat canFwd m)
    let store' := store ++ recordsOf res.1
    match res.2 with
    | some _ => (store', false)
    | none => processMsgs fuel outChat inChat canFwd envOf store' rest

/-- One CloneChat.clone run over a starting store: the input TgChat is
built with forward_messages demoted by its has_protected_content flag
(TgChat.__init__), its iter_messages feeds the loop, and the output
TgChat inserts the correlation rows. Both targets share one database
(CloneChat passes db_path=self.input.db_path). -/
def runOnce (p : RunParams) (store : List Record) : List Record × Bool :=
  processMsgs p.fuel p.outChat p.inChat
    (TgChat.initForward p.cfg.forward_messages p.inputProtected) p.envOf store
    (TgChat.iterMessages store p.inChat p.history)

/-- Correlation rows a run adds beyond the starting store. -/
def newRecords (p : RunParams) (store : List Record) : List Record :=
  (runOnce p store).1.drop store.length

/-- Records contributed by one message of a run. -/
def stepRecords (fuel : Nat) (outChat : Int) (inChat : Int) (canFwd : Bool)
    (envOf : Msg → Env) (m : Msg) : List Record :=
  recordsOf (sendMessageF fuel outChat (envOf m) (TgChat.getUniversalMessage inChat canFwd m)).1

/-- Exception outcome of one message of a run. -/
def stepExc (fuel : Nat) (outChat : Int) (inChat : Int) (canFwd : Bool)
    (envOf : Msg → Env) (m : Msg) : Option SendExc :=
  (sendMessageF fuel outChat (envOf m) (TgChat.getUniversalMessage inChat canFwd m)).2

/-- Well-formed chat history: newest first with strictly decreasing,
positive Telegram message ids. -/
def histOk (h : List Msg) : Prop :=
  (h.map Msg.id).Pairwise (· > ·) ∧ ∀ m ∈ h, 0 < m.id

/-- Correlation stores reachable by the engine: the empty store, plus
anything obtained by one run with a well-formed history. Runs may use
arbitrary chats, configs and client behaviour. -/
inductive Reachable : List Record → Prop
  | nil : Reachable []
  | run (p : RunParams) (s : List Record) (hs : Reachable s) (hh : histOk p.history) :
      Reachable (runOnce p s).1

/-- Archive row of the DumpChat `messages` table
(DumpChat._create_initial_schema). -/
structure DumpRow where
  chat_id : Int
  message_id : Nat
  message_text : Option String
  message_media_path : Option String
  deriving DecidableEq, Repr

/-- Archive path DumpChat.__download_media computes:
`self.target_path / str(message.id) / self.get_filename(message.media)`.
The code passes the MessageMediaType enum value to get_filename, which
has neither a `file_name` nor a `media_type` attribute, so the filename
is always get_filename(None, None). -/
def dumpMediaPath (root : String) (msgId : Nat) : String :=
  root ++ "/" ++ toString msgId ++ "/" ++ get_filename none none

/-- DumpChat.__download_media (targets.py lines 260-292), over an
explicit filesystem (the list of existing file paths). Without media it
returns None. When a file already exists at the computed archive path it
returns that path with no download call. Otherwise it downloads to the
exact file path (`downloadCreates` says whether the client materializes
the file) and then evaluates `next(p for p in save_path.iterdir() ...)`
on that file path, which raises (NotADirectoryError, or
FileNotFoundError when no file was created); the raise is modelled as
`Except.error ()`. Result: (outcome, filesystem after, download calls). -/
def DumpChat.downloadMedia (downloadCreates : Bool) (root : String) (fs : List String)
    (msg : Msg) : Except Unit (Option String) × List String × Nat :=
  match msg.media with
  | none => (.ok none, fs, 0)
  | some _ =>
    let path := dumpMediaPath root msg.id
    if path ∈ fs then (.ok (some path), fs, 0)
    else (.error (), if downloadCreates then path :: fs else fs, 1)

/-- DumpChat.send_message (targets.py lines 294-308): downloads the
media (if any), then inserts the archive row with the media path; an
exception from the download step propagates, so no row is inserted.
Result: (filesystem after, rows after, download calls, raised). -/
def DumpChat.sendMessage (downloadCreates : Bool) (root : String) (chatId : Int)
    (fs : List String) (rows : List DumpRow) (um : UMsg) :
    List String × List DumpRow × Nat × Bool :=
  match um.message with
  | none => (fs, rows, 0, false)
  | some tg =>
    match DumpChat.downloadMedia downloadCreates root fs tg with
    | (.error _, fs', n) => (fs', rows, n, true)
    | (.ok mp, fs', n) =>
      (fs', rows ++ [⟨chatId, tg.id, tg.text, mp⟩], n, false)

/-! Concrete inputs used to instantiate the theorems below. -/

/-- Client behaviour where every call succeeds. -/
def envAllOk : Env :=
  { copyRes := .ok 1000, downloadRes := some "file.bin", sendRes := .ok 1001,
    sendTextId := 1002 }

/-- Client behaviour where the media send primitive raises ValueError on
every attempt. -/
def envValueError : Env :=
  { copyRes := .ok 1000, downloadRes := some "file.bin", sendRes := .valueError,
    sendTextId := 1002 }

/-- Client behaviour where copy_message raises. -/
def envCopyRaises : Env :=
  { copyRes := .raised, downloadRes := some "file.bin", sendRes := .ok 1001,
    sendTextId := 1002 }

/-- Client behaviour where download_media does not return a str. -/
def envDownloadFails : Env :=
  { copyRes := .ok 1000, downloadRes := none, sendRes := .ok 1001, sendTextId := 1002 }

/-- Two-message history, newest first. -/
def histW : List Msg := [{ id := 5, text := some "m5" }, { id := 3, text := some "m3" }]

/-- A run in forward mode (forwarding requested, source not protected,
reverse flag false) over histW where every client call succeeds. -/
def pW : RunParams :=
  { fuel := 4
    cfg := Target.initCfg { forward_messages := some true }
    inChat := 1
    outChat := 2
    inputProtected := false
    envOf := fun _ => envAllOk
    history := histW }

/-- A store holding one correlation record: source chat 1, source
message 5, destination chat 2. -/
def c4store : List Record := [⟨1, 5, 2, 100⟩]

/-- A text-only message with id 3. -/
def c4m3 : Msg := { id := 3, text := some "hello" }

/-- History with ids 7 and 3, newest first. -/
def c4hist : List Msg := [{ id := 7, text := some "a" }, c4m3]

/-- A store where the same source chat 1 was cloned into two different
destination chats; the most recent record overall is for destination 2,
while the most recent record for destination 3 has source message id 9. -/
def c4storePair : List Record := [⟨1, 9, 3, 50⟩, ⟨1, 5, 2, 100⟩]

/-- A text-only message (no media), as delivered on the recreate path. -/
def umTextOnly : UMsg := TgChat.getUniversalMessage 1 false c4m3

/-- A video message delivered on the recreate path. -/
def umVideo : UMsg :=
  TgChat.getUniversalMessage 1 false { id := 6, media := some { kind := "video" }, text := some "cap" }

/-- A sticker message delivered on the recreate path. -/
def umSticker : UMsg :=
  TgChat.getUniversalMessage 1 false { id := 9, media := some { kind := "sticker" }, text := some "hi" }

/-- A message wrapped with can_forward = true. -/
def umForward : UMsg :=
  TgChat.getUniversalMessage 1 true { id := 7, media := some { kind := "photo" }, text := some "x" }

/-! Basic lemmas about the delivery model. -/

theorem recordsOf_append (a b : List Effect) :
    recordsOf (a ++ b) = recordsOf a ++ recordsOf b := by
  simp [recordsOf, List.filterMap_append]

theorem sendFileName_none_iff (kind path : String) :
    sendFileName kind path = none ↔ kind ∈ ["photo", "audio", "sticker"] := by
  unfold sendFileName
  by_cases h : kind ∈ ["photo", "audio", "sticker"]
  · simp [h]
  · simp [h]

/-- A single send_message call inserts either no correlation row or
exactly the row built by TgChat.__insert_sent_message for this
message. -/
theorem sendMessageF_shape (outChat : Int) (env : Env) (um : UMsg) :
    ∀ fuel : Nat,
      recordsOf (sendMessageF fuel outChat env um).1 = [] ∨
      ∃ sid, recordsOf (sendMessageF fuel outChat env um).1 =
        [insertSentRecord outChat um sid] := by
  intro fuel
  induction fuel with
  | zero => left; rfl
  | succ n ih =>
    rcases hum : um.message with _ | tg
    · left; simp [sendMessageF, hum, recordsOf]
    · cases hcf : um.can_forward with
      | true =>
        cases hc : env.copyRes with
        | raised => left; simp [sendMessageF, hum, hcf, hc, recordsOf]
        | notMessage => left; simp [sendMessageF, hum, hcf, hc, recordsOf]
        | ok sid => right; exact ⟨sid, by simp [sendMessageF, hum, hcf, hc, recordsOf]⟩
      | false =>
        rcases hmed : tg.media with _ | media
        · right
          exact ⟨env.sendTextId, by simp [sendMessageF, hum, hcf, hmed, recordsOf]⟩
        · cases hdl : env.downloadRes with
          | none => left; simp [sendMessageF, hum, hcf, hmed, hdl, recordsOf]
          | some path =>
            cases hs : env.sendRes with
            | raised => left; simp [sendMessageF, hum, hcf, hmed, hdl, hs, recordsOf]
            | ok sid =>
              right
              exact ⟨sid, by simp [sendMessageF, hum, hcf, hmed, hdl, hs, recordsOf]⟩
            | valueError =>
              have hrw : (sendMessageF (n + 1) outChat env um).1 =
                  [Effect.mkdirScratch tg.id, Effect.download tg.id true,
                    Effect.sendMedia media.kind tg.text (sendFileName media.kind path)] ++
                    (sendMessageF n outChat env um).1 := by
                simp [sendMessageF, hum, hcf, hmed, hdl, hs]
              rw [hrw, recordsOf_append]
              have hpre : recordsOf [Effect.mkdirScratch tg.id, Effect.download tg.id true,
                  Effect.sendMedia media.kind tg.text (sendFileName media.kind path)] = [] := by
                simp [recordsOf]
              rw [hpre, List.nil_append]
              exact ih

/-- Every row inserted by send_message carries the message's provenance
and the output chat id. -/
theorem sendMessageF_records (fuel : Nat) (outChat : Int) (env : Env) (um : UMsg) :
    ∀ r ∈ recordsOf (sendMessageF fuel outChat env um).1,
      r.input_chat_id = um.chat_id ∧ r.input_message_id = um.message_id ∧
        r.output_chat_id = outChat := by
  intro r hr
  rcases sendMessageF_shape outChat env um fuel with h | ⟨sid, h⟩
  · rw [h] at hr; cases hr
  · rw [h, List.mem_singleton] at hr
    subst hr; exact ⟨rfl, rfl, rfl⟩

/-- A run that raises nowhere appends exactly the rows of each processed
message, in order, and reports completion. -/
theorem processMsgs_complete (fuel : Nat) (outChat : Int) (inChat : Int) (canFwd : Bool)
    (envOf : Msg → Env) :
    ∀ (msgs : List Msg) (store : List Record),
      (∀ m ∈ msgs, stepExc fuel outChat inChat canFwd envOf m = none) →
      processMsgs fuel outChat inChat canFwd envOf store msgs =
        (store ++ msgs.flatMap (stepRecords fuel outChat inChat canFwd envOf), true) := by
  intro msgs
  induction msgs with
  | nil => intro store _; simp [processMsgs]
  | cons m rest ih =>
    intro store hall
    have hm : (sendMessageF fuel outChat (envOf m)
        (TgChat.getUniversalMessage inChat canFwd m)).2 = none :=
      hall m (List.mem_cons_self m rest)
    have hrest := ih (store ++ stepRecords fuel outChat inChat canFwd envOf m)
      (fun x hx => hall x (List.mem_cons_of_mem m hx))
    simp only [processMsgs, hm]
    rw [stepRecords] at hrest
    rw [hrest]
    simp [stepRecords, List.append_assoc]

/-- Completion of a run means no processed message raised. -/
theorem processMsgs_true (fuel : Nat) (outChat : Int) (inChat : Int) (canFwd : Bool)
    (envOf : Msg → Env) :
    ∀ (msgs : List Msg) (store : List Record),
      (processMsgs fuel outChat inChat canFwd envOf store msgs).2 = true →
      ∀ m ∈ msgs, stepExc fuel outChat inChat canFwd envOf m = none := by
  intro msgs
  induction msgs with
  | nil => intro store _ m hm; cases hm
  | cons m rest ih =>
    intro store hdone x hx
    cases hexc : (sendMessageF fuel outChat (envOf m)
        (TgChat.getUniversalMessage inChat canFwd m)).2 with
    | some e =>
      exfalso
      simp only [processMsgs, hexc] at hdone
      exact Bool.false_ne_true hdone
    | none =>
      simp only [processMsgs, hexc] at hdone
      cases hx with
      | head => exact hexc
      | tail _ hx => exact ih _ hdone x hx

/-- In general (completed or aborted), a run appends the rows of some
initial segment of the processed messages. -/
theorem processMsgs_split (fuel : Nat) (outChat : Int) (inChat : Int) (canFwd : Bool)
    (envOf : Msg → Env) :
    ∀ (msgs : List Msg) (store : List Record),
      ∃ pre suf, msgs = pre ++ suf ∧
        (processMsgs fuel outChat inChat canFwd envOf store msgs).1 =
          store ++ pre.flatMap (stepRecords fuel outChat inChat canFwd envOf) := by
  intro msgs
  induction msgs with
  | nil => intro store; exact ⟨[], [], rfl, by simp [processMsgs]⟩
  | cons m rest ih =>
    intro store
    cases hexc : (sendMessageF fuel outChat (envOf m)
        (TgChat.getUniversalMessage inChat canFwd m)).2 with
    | some e =>
      refine ⟨[m], rest, rfl, ?_⟩
      simp [processMsgs, hexc, stepRecords]
    | none =>
      obtain ⟨pre, suf, hsplit, heq⟩ := ih (store ++ stepRecords fuel outChat inChat canFwd envOf m)
      refine ⟨m :: pre, suf, by rw [hsplit, List.cons_append], ?_⟩
      simp only [processMsgs, hexc]
      rw [stepRecords] at heq
      rw [heq]
      simp [stepRecords, List.append_assoc]

/-- Ids of the rows a message list contributes form a subsequence of the
message ids. -/
theorem flatMap_stepRecords_sublist (fuel : Nat) (outChat : Int) (inChat : Int) (canFwd : Bool)
    (envOf : Msg → Env) :
    ∀ msgs : List Msg,
      List.Sublist
        ((msgs.flatMap (stepRecords fuel outChat inChat canFwd envOf)).map
          Record.input_message_id)
        (msgs.map Msg.id) := by
  intro msgs
  induction msgs with
  | nil => simp
  | cons m rest ih =>
    rw [List.flatMap_cons, List.map_cons, List.map_append]
    rcases sendMessageF_shape outChat (envOf m) (TgChat.getUniversalMessage inChat canFwd m)
        fuel with h | ⟨sid, h⟩
    · rw [stepRecords, h]
      exact List.Sublist.cons m.id ih
    · rw [stepRecords, h]
      exact List.Sublist.cons₂ m.id ih

/-- Rows contributed by a message list: provenance fields and origin. -/
theorem flatMap_stepRecords_mem (fuel : Nat) (outChat : Int) (inChat : Int) (canFwd : Bool)
    (envOf : Msg → Env) (msgs : List Msg) :
    ∀ r ∈ msgs.flatMap (stepRecords fuel outChat inChat canFwd envOf),
      r.input_chat_id = inChat ∧ r.output_chat_id = outChat ∧
        ∃ m ∈ msgs, r.input_message_id = m.id := by
  intro r hr
  rw [List.mem_flatMap] at hr
  obtain ⟨m, hm, hrm⟩ := hr
  have := sendMessageF_records fuel outChat (envOf m)
    (TgChat.getUniversalMessage inChat canFwd m) r hrm
  rw [TgChat.getUniversalMessage] at this
  exact ⟨this.1, this.2.2, m, hm, this.2.1⟩

/-! Lemmas about iter_messages and the resume point. -/

theorem iterMessages_mem_iff (store : List Record) (inChat : Int) (history : List Msg)
    (m : Msg) :
    m ∈ TgChat.iterMessages store inChat history ↔
      m ∈ history ∧ m.service = false ∧
        (lastSentMessageId store inChat = 0 ∨ m.id < lastSentMessageId store inChat) := by
  unfold TgChat.iterMessages get_chat_history
  by_cases h0 : lastSentMessageId store inChat = 0
  · simp [h0]
  · have : (lastSentMessageId store inChat == 0) = false := by
      simp [h0]
    simp [this, List.mem_filter, h0]

theorem iterMessages_sublist (store : List Record) (inChat : Int) (history : List Msg) :
    List.Sublist (TgChat.iterMessages store inChat history) history := by
  unfold TgChat.iterMessages get_chat_history
  by_cases h0 : (lastSentMessageId store inChat == 0) = true
  · rw [if_pos h0]; exact List.filter_sublist history
  · rw [if_neg h0]
    exact List.Sublist.trans (List.filter_sublist _) (List.filter_sublist history)

theorem iterMessages_ids_pairwise (store : List Record) (inChat : Int) (history : List Msg)
    (hh : histOk history) :
    ((TgChat.iterMessages store inChat history).map Msg.id).Pairwise (· > ·) :=
  List.Pairwise.sublist (List.Sublist.map Msg.id (iterMessages_sublist store inChat history))
    hh.1

theorem le_getLast_of_pairwise_gt :
    ∀ l : List Nat, l.Pairwise (· > ·) → ∀ b, l.getLast? = some b → ∀ a ∈ l, b ≤ a := by
  intro l
  induction l with
  | nil => intro _ b hb; simp at hb
  | cons x xs ih =>
    intro hp b hb a ha
    cases xs with
    | nil =>
      simp only [List.getLast?_singleton, Option.some.injEq] at hb
      rw [List.mem_singleton] at ha
      subst hb; subst ha; exact le_refl a
    | cons y ys =>
      rw [List.getLast?_cons_cons] at hb
      have hbmem : b ∈ y :: ys := by
        obtain ⟨hne, hbeq⟩ := List.mem_getLast?_eq_getLast hb
        rw [hbeq]; exact List.getLast_mem hne
      rw [List.pairwise_cons] at hp
      cases ha with
      | head => exact le_of_lt (hp.1 b hbmem)
      | tail _ ha => exact ih hp.2 b hb a ha

theorem lastSent_append (s t : List Record) (c : Int) :
    lastSentMessageId (s ++ t) c =
      if (t.filter fun r => r.input_chat_id == c) = [] then lastSentMessageId s c
      else lastSentMessageId t c := by
  unfold lastSentMessageId
  rw [List.filter_append]
  by_cases h : (t.filter fun r => r.input_chat_id == c) = []
  · rw [if_pos h, h, List.append_nil]
  · rw [if_neg h, List.getLast?_append_of_ne_nil _ h]

/-- Store invariant maintained by the engine: for each source chat, the
recorded source message ids are strictly decreasing in insertion order
(the engine walks history newest-first and resumes below the minimum),
and all recorded ids are positive. -/
def storeInv (s : List Record) : Prop :=
  (∀ c : Int,
    ((s.filter fun r => r.input_chat_id == c).map Record.input_message_id).Pairwise (· > ·)) ∧
  ∀ r ∈ s, 0 < r.input_message_id

theorem storeInv_nil : storeInv [] := ⟨fun _ => List.Pairwise.nil, fun r hr => absurd hr (by simp)⟩

/-- Rows appended by one run: they belong to the run's source chat, have
ids of iterated messages (positive, strictly decreasing as a sequence),
and all lie strictly below the prior resume point when one exists. -/
theorem runOnce_new (p : RunParams) (s : List Record) (hh : histOk p.history) :
    ∃ New, (runOnce p s).1 = s ++ New ∧
      (∀ r ∈ New, r.input_chat_id = p.inChat ∧ r.output_chat_id = p.outChat ∧
        0 < r.input_message_id ∧
        (lastSentMessageId s p.inChat = 0 ∨
          r.input_message_id < lastSentMessageId s p.inChat)) ∧
      (New.map Record.input_message_id).Pairwise (· > ·) := by
  obtain ⟨pre, suf, hsplit, heq⟩ := processMsgs_split p.fuel p.outChat p.inChat
    (TgChat.initForward p.cfg.forward_messages p.inputProtected) p.envOf
    (TgChat.iterMessages s p.inChat p.history) s
  refine ⟨_, heq, ?_, ?_⟩
  · intro r hr
    obtain ⟨hc, ho, m, hm, hid⟩ := flatMap_stepRecords_mem p.fuel p.outChat p.inChat
      (TgChat.initForward p.cfg.forward_messages p.inputProtected) p.envOf pre r hr
    have hmm : m ∈ TgChat.iterMessages s p.inChat p.history := by
      rw [hsplit]; exact List.mem_append_left suf hm
    rw [iterMessages_mem_iff] at hmm
    refine ⟨hc, ho, ?_, ?_⟩
    · rw [hid]; exact hh.2 m hmm.1
    · rw [hid]; exact hmm.2.2
  · have h1 := flatMap_stepRecords_sublist p.fuel p.outChat p.inChat
      (TgChat.initForward p.cfg.forward_messages p.inputProtected) p.envOf pre
    have h2 : List.Sublist (pre.map Msg.id)
        ((TgChat.iterMessages s p.inChat p.history).map Msg.id) := by
      rw [hsplit, List.map_append]
      exact List.sublist_append_left _ _
    exact List.Pairwise.sublist (h1.trans h2)
      (iterMessages_ids_pairwise s p.inChat p.history hh)

/-- When a store satisfies the invariant, a nonempty set of rows for
chat c implies the resume point for c is the (positive) id of the most
recent such row, and every recorded id for c is at least that. -/
theorem lastSent_pos_of_filter_ne_nil (s : List Record) (c : Int) (hinv : storeInv s)
    (hne : (s.filter fun r => r.input_chat_id == c) ≠ []) :
    0 < lastSentMessageId s c ∧
      ∀ r ∈ s.filter fun r => r.input_chat_id == c,
        lastSentMessageId s c ≤ r.input_message_id := by
  set l := s.filter fun r => r.input_chat_id == c with hl
  obtain ⟨rl, hrl⟩ : ∃ rl, l.getLast? = some rl := by
    cases h : l.getLast? with
    | none => exact absurd (List.getLast?_eq_none_iff.mp h) hne
    | some rl => exact ⟨rl, rfl⟩
  have hresume : lastSentMessageId s c = rl.input_message_id := by
    unfold lastSentMessageId
    rw [← hl, hrl]
  have hmap : (l.map Record.input_message_id).getLast? = some rl.input_message_id := by
    rw [List.getLast?_map, hrl, Option.map_some']
  have hle := le_getLast_of_pairwise_gt (l.map Record.input_message_id) (hinv.1 c)
    rl.input_message_id hmap
  constructor
  · rw [hresume]
    have : rl ∈ l := by
      obtain ⟨hne', heq'⟩ := List.mem_getLast?_eq_getLast hrl
      rw [heq']; exact List.getLast_mem hne'
    exact hinv.2 rl (List.mem_of_mem_filter this)
  · intro r hr
    rw [hresume]
    exact hle r.input_message_id (List.mem_map_of_mem Record.input_message_id hr)

/-- One run preserves the store invariant. -/
theorem storeInv_step (p : RunParams) (s : List Record) (hinv : storeInv s)
    (hh : histOk p.history) : storeInv (runOnce p s).1 := by
  obtain ⟨New, heq, hmem, hpw⟩ := runOnce_new p s hh
  rw [heq]
  constructor
  · intro c
    rw [List.filter_append, List.map_append, List.pairwise_append]
    by_cases hc : c = p.inChat
    · subst hc
      have hNf : New.filter (fun r => r.input_chat_id == p.inChat) = New :=
        List.filter_eq_self.mpr fun r hr => by
          have := (hmem r hr).1; simp [this]
      rw [hNf]
      refine ⟨hinv.1 p.inChat, hpw, ?_⟩
      intro a ha b hb
      rw [List.mem_map] at ha hb
      obtain ⟨ra, hra, haid⟩ := ha
      obtain ⟨rb, hrb, hbid⟩ := hb
      have hne : (s.filter fun r => r.input_chat_id == p.inChat) ≠ [] := by
        intro h0; rw [h0] at hra; cases hra
      obtain ⟨hpos, hge⟩ := lastSent_pos_of_filter_ne_nil s p.inChat hinv hne
      have hblt : rb.input_message_id < lastSentMessageId s p.inChat := by
        rcases (hmem rb hrb).2.2.2 with h0 | hlt
        · exact absurd h0 (Nat.pos_iff_ne_zero.mp hpos)
        · exact hlt
      have hage := hge ra hra
      rw [← haid, ← hbid]
      exact lt_of_lt_of_le hblt hage
    · have hNf : New.filter (fun r => r.input_chat_id == c) = [] :=
        List.filter_eq_nil_iff.mpr fun r hr => by
          have := (hmem r hr).1
          simp [this]
          exact fun h => hc h.symm
      rw [hNf]
      refine ⟨hinv.1 c, List.Pairwise.nil, ?_⟩
      intro a _ b hb
      simp at hb
  · intro r hr
    rcases List.mem_append.mp hr with h | h
    · exact hinv.2 r h
    · exact (hmem r h).2.2.1

/-- Every reachable store satisfies the invariant. -/
theorem reachable_storeInv (s : List Record) (h : Reachable s) : storeInv s := by
  induction h with
  | nil => exact storeInv_nil
  | run p s' _ hh ih => exact storeInv_step p s' ih hh

/-- A second run with the same parameters over the store left by a
completed run processes only messages strictly below the new resume
point; none of them produced a row in the first run (deterministic
client behaviour), so none produces a row now: the store is unchanged
and the run completes. -/
theorem runOnce_twice (p : RunParams) (s0 : List Record) (hh : histOk p.history)
    (hdone : (runOnce p s0).2 = true) :
    runOnce p (runOnce p s0).1 = ((runOnce p s0).1, true) := by
  have hall : ∀ m ∈ TgChat.iterMessages s0 p.inChat p.history,
      stepExc p.fuel p.outChat p.inChat
        (TgChat.initForward p.cfg.forward_messages p.inputProtected) p.envOf m = none :=
    processMsgs_true p.fuel p.outChat p.inChat
      (TgChat.initForward p.cfg.forward_messages p.inputProtected) p.envOf
      (TgChat.iterMessages s0 p.inChat p.history) s0 hdone
  have hrun1 : runOnce p s0 =
      (s0 ++ (TgChat.iterMessages s0 p.inChat p.history).flatMap
        (stepRecords p.fuel p.outChat p.inChat
          (TgChat.initForward p.cfg.forward_messages p.inputProtected) p.envOf), true) :=
    processMsgs_complete p.fuel p.outChat p.inChat
      (TgChat.initForward p.cfg.forward_messages p.inputProtected) p.envOf
      (TgChat.iterMessages s0 p.inChat p.history) s0 hall
  set canFwd := TgChat.initForward p.cfg.forward_messages p.inputProtected with hcfw
  set msgs0 := TgChat.iterMessages s0 p.inChat p.history with hmsgs0
  set New := msgs0.flatMap (stepRecords p.fuel p.outChat p.inChat canFwd p.envOf) with hNew
  have hkey : ∀ m ∈ TgChat.iterMessages (s0 ++ New) p.inChat p.history,
      m ∈ msgs0 ∧ stepRecords p.fuel p.outChat p.inChat canFwd p.envOf m = [] := by
    by_cases hN : New = []
    · intro m hm
      rw [hN, List.append_nil, ← hmsgs0] at hm
      refine ⟨hm, ?_⟩
      rw [List.eq_nil_iff_forall_not_mem]
      intro r hr
      have : r ∈ New := hNew ▸ List.mem_flatMap.mpr ⟨m, hm, hr⟩
      rw [hN] at this
      cases this
    · have hmemNew : ∀ r ∈ New, r.input_chat_id = p.inChat ∧
          ∃ m ∈ msgs0, r.input_message_id = m.id := by
        intro r hr
        obtain ⟨hc, _, m, hm, hid⟩ := flatMap_stepRecords_mem p.fuel p.outChat p.inChat
          canFwd p.envOf msgs0 r (hNew ▸ hr)
        exact ⟨hc, m, hm, hid⟩
      have hNf : New.filter (fun r => r.input_chat_id == p.inChat) = New :=
        List.filter_eq_self.mpr fun r hr => by
          have := (hmemNew r hr).1; simp [this]
      obtain ⟨rl, hrl⟩ : ∃ rl, New.getLast? = some rl := by
        cases h : New.getLast? with
        | none => exact absurd (List.getLast?_eq_none_iff.mp h) hN
        | some rl => exact ⟨rl, rfl⟩
      have hres1 : lastSentMessageId (s0 ++ New) p.inChat = rl.input_message_id := by
        rw [lastSent_append, if_neg (by rw [hNf]; exact hN)]
        unfold lastSentMessageId
        rw [hNf, hrl]
      have hrlNew : rl ∈ New := by
        obtain ⟨hne', heq'⟩ := List.mem_getLast?_eq_getLast hrl
        rw [heq']; exact List.getLast_mem hne'
      obtain ⟨_, mstar, hmstar, hidstar⟩ := hmemNew rl hrlNew
      have hmstar' := (iterMessages_mem_iff s0 p.inChat p.history mstar).mp (hmsgs0 ▸ hmstar)
      have hμpos : 0 < rl.input_message_id := by
        rw [hidstar]; exact hh.2 mstar hmstar'.1
      have hμlt : lastSentMessageId s0 p.inChat = 0 ∨
          rl.input_message_id < lastSentMessageId s0 p.inChat := by
        rw [hidstar]; exact hmstar'.2.2
      have hNpw : (New.map Record.input_message_id).Pairwise (· > ·) := by
        rw [hNew]
        exact List.Pairwise.sublist
          (flatMap_stepRecords_sublist p.fuel p.outChat p.inChat canFwd p.envOf msgs0)
          (hmsgs0 ▸ iterMessages_ids_pairwise s0 p.inChat p.history hh)
      have hgeμ : ∀ x ∈ New.map Record.input_message_id, rl.input_message_id ≤ x :=
        le_getLast_of_pairwise_gt (New.map Record.input_message_id) hNpw
          rl.input_message_id (by rw [List.getLast?_map, hrl, Option.map_some'])
      intro m hm
      have hm' := (iterMessages_mem_iff (s0 ++ New) p.inChat p.history m).mp hm
      have hmlt : m.id < rl.input_message_id := by
        rcases hm'.2.2 with h0 | hlt
        · rw [hres1] at h0; exact absurd h0 (Nat.pos_iff_ne_zero.mp hμpos)
        · rw [hres1] at hlt; exact hlt
      have hm0 : m ∈ msgs0 := by
        rw [hmsgs0, iterMessages_mem_iff]
        refine ⟨hm'.1, hm'.2.1, ?_⟩
        rcases hμlt with h0 | hlt
        · exact Or.inl h0
        · exact Or.inr (lt_trans hmlt hlt)
      refine ⟨hm0, ?_⟩
      rw [List.eq_nil_iff_forall_not_mem]
      intro r hr
      have hrNew : r ∈ New := hNew ▸ List.mem_flatMap.mpr ⟨m, hm0, hr⟩
      have hrid : r.input_message_id = m.id :=
        (sendMessageF_records p.fuel p.outChat (p.envOf m)
          (TgChat.getUniversalMessage p.inChat canFwd m) r hr).2.1
      have := hgeμ r.input_message_id (List.mem_map_of_mem Record.input_message_id hrNew)
      rw [hrid] at this
      exact absurd hmlt (not_lt_of_le this)
  have hall1 : ∀ m ∈ TgChat.iterMessages (s0 ++ New) p.inChat p.history,
      stepExc p.fuel p.outChat p.inChat canFwd p.envOf m = none :=
    fun m hm => hall m (hmsgs0 ▸ (hkey m hm).1)
  have hrun2 : runOnce p (s0 ++ New) = (s0 ++ New, true) := by
    have := processMsgs_complete p.fuel p.outChat p.inChat canFwd p.envOf
      (TgChat.iterMessages (s0 ++ New) p.inChat p.history) (s0 ++ New) hall1
    have hnil : (TgChat.iterMessages (s0 ++ New) p.inChat p.history).flatMap
        (stepRecords p.fuel p.outChat p.inChat canFwd p.envOf) = [] :=
      List.flatMap_eq_nil_iff.mpr fun m hm => (hkey m hm).2
    rw [hnil, List.append_nil] at this
    exact this
  rw [hrun1]
  exact hrun2

/-- A filtered selection whose elements all have source message id i,
out of a list whose ids are strictly decreasing, has at most one
element. -/
theorem filter_len_le_one_of_pairwise_ids {l : List Record} (i : Nat)
    (hpw : (l.map Record.input_message_id).Pairwise (· > ·)) (p : Record → Bool)
    (hp : ∀ r, p r = true → r.input_message_id = i) :
    (l.filter p).length ≤ 1 := by
  have hsub := List.filter_sublist (p := p) l
  have hpw2 : ((l.filter p).map Record.input_message_id).Pairwise (· > ·) :=
    List.Pairwise.sublist (List.Sublist.map _ hsub) hpw
  cases hf : l.filter p with
  | nil => simp
  | cons a t =>
    cases t with
    | nil => simp
    | cons b t2 =>
      exfalso
      rw [hf, List.map_cons, List.map_cons, List.pairwise_cons] at hpw2
      have hab := hpw2.1 b.input_message_id (by simp)
      have ha : a.input_message_id = i :=
        hp a (List.of_mem_filter (by rw [hf]; exact List.mem_cons_self a (b :: t2)))
      have hb : b.input_message_id = i :=
        hp b (List.of_mem_filter
          (by rw [hf]; exact List.mem_cons_of_mem a (List.mem_cons_self b t2)))
      rw [ha, hb] at hab
      exact lt_irrefl i hab

/-! Claim theorems. -/

/-- C3: in every reachable state of the correlation store, for each
(sourceChatId, destChatId) pair at most one correlation record exists
per sourceMessageId; and after a completed run, running the engine again
against the unchanged source (same history, same deterministic client
behaviour) inserts zero new correlation records and completes. -/
theorem C3_unique_records_and_idempotent_rerun :
    (∀ s, Reachable s → ∀ c o : Int, ∀ i : Nat,
      ((s.filter fun r => r.input_chat_id == c).filter
        fun r => r.output_chat_id == o && r.input_message_id == i).length ≤ 1) ∧
    (∀ (p : RunParams) (s0 : List Record), histOk p.history →
      (runOnce p s0).2 = true →
      runOnce p (runOnce p s0).1 = ((runOnce p s0).1, true)) := by
  constructor
  · intro s hreach c o i
    have hinv := reachable_storeInv s hreach
    refine filter_len_le_one_of_pairwise_ids i (hinv.1 c) _ ?_
    intro r hp
    simp only [Bool.and_eq_true, beq_iff_eq] at hp
    exact hp.2
  · exact runOnce_twice

/-- Witness for C3: a concrete reachable store (left by one successful
run of pW from the empty store) with the uniqueness bound evaluated, and
a concrete completed first run whose repetition leaves the store
unchanged. -/
theorem C3_witness :
    ((((runOnce pW []).1.filter fun r => r.input_chat_id == 1).filter
      fun r => r.output_chat_id == 2 && r.input_message_id == 5).length ≤ 1) ∧
    runOnce pW (runOnce pW []).1 = ((runOnce pW []).1, true) :=
  ⟨C3_unique_records_and_idempotent_rerun.1 (runOnce pW []).1
      (Reachable.run pW [] Reachable.nil ⟨by decide, by decide⟩) 1 2 5,
    C3_unique_records_and_idempotent_rerun.2 pW [] ⟨by decide, by decide⟩ (by decide)⟩

/-- C4 counterexample: the claim as stated fails on the code. First, a
yielded message's id is not strictly after (greater than) the resume
point: with a record for source message 5, iteration yields the message
with id 3 (pyrogram offset_id returns strictly older messages). Second,
the resume query is not scoped to the (sourceChatId, destChatId) pair:
with records for two destinations, the most recent record for the
current pair (source 1, dest 3) has source message id 9, yet the
computed resume point is 5, the id of the most recent record for source
chat 1 regardless of destination. -/
theorem C4_counterexample :
    (c4m3 ∈ TgChat.iterMessages c4store 1 c4hist ∧
      lastSentMessageId c4store 1 = 5 ∧
      ¬ c4m3.id > lastSentMessageId c4store 1) ∧
    (lastSentMessageId c4storePair 1 = 5 ∧
      ((c4storePair.filter fun r => r.input_chat_id == 1).filter
        fun r => r.output_chat_id == 3).getLast? = some ⟨1, 9, 3, 50⟩) :=
  ⟨⟨by decide, by decide, by decide⟩, by decide, by decide⟩

/-- C4 amended: the resume point equals the sourceMessageId of the most
recently inserted record whose input_chat_id matches the source chat —
the destination chat is ignored (rewriting every record's
output_chat_id leaves the resume point unchanged) — and every yielded
message has an id strictly below (older than) that resume point
whenever one exists. -/
theorem C4_resume_point_semantics (store : List Record) (c : Int) (h : List Msg) :
    (∀ m ∈ TgChat.iterMessages store c h,
      lastSentMessageId store c ≠ 0 → m.id < lastSentMessageId store c) ∧
    ∀ f : Record → Int,
      lastSentMessageId (store.map fun r => { r with output_chat_id := f r }) c =
        lastSentMessageId store c := by
  constructor
  · intro m hm hne
    rcases ((iterMessages_mem_iff store c h m).mp hm).2.2 with h0 | hlt
    · exact absurd h0 hne
    · exact hlt
  · intro f
    unfold lastSentMessageId
    rw [List.filter_map]
    have hcomp : ((fun r => r.input_chat_id == c) ∘
        fun r : Record => { r with output_chat_id := f r }) =
        fun r : Record => r.input_chat_id == c := rfl
    rw [hcomp, List.getLast?_map]
    cases hg : (store.filter fun r => r.input_chat_id == c).getLast? with
    | none => simp
    | some r => simp

/-- Witness for C4's amended theorem at the concrete store and history
of the counterexample. -/
theorem C4_resume_point_semantics_witness :
    c4m3 ∈ TgChat.iterMessages c4store 1 c4hist ∧
    lastSentMessageId c4store 1 ≠ 0 ∧
    c4m3.id < lastSentMessageId c4store 1 :=
  ⟨by decide, by decide,
    (C4_resume_point_semantics c4store 1 c4hist).1 c4m3 (by decide) (by decide)⟩

/-- C5 counterexample: in forward mode (reverse flag false, forwarding
allowed) a run over a fresh store inserts records with sourceMessageIds
5 then 3 — a strictly decreasing, not strictly increasing, sequence. -/
theorem C5_counterexample :
    pW.cfg.reverse_messages = false ∧
    (newRecords pW []).map Record.input_message_id = [5, 3] ∧
    ¬ ((newRecords pW []).map Record.input_message_id).Pairwise (· < ·) :=
  ⟨rfl, by decide, by decide⟩

/-- C5 amended: in any single run the sequence of sourceMessageId values
of newly inserted correlation records is strictly decreasing (the engine
walks history newest-first), every newly inserted id is strictly below
the prior resume point whenever one exists, and the reverse_messages
flag has no effect on the run at all (the source marks its application
as an unimplemented TODO). -/
theorem C5_insertion_order (p : RunParams) (s : List Record) (hh : histOk p.history) :
    ((newRecords p s).map Record.input_message_id).Pairwise (· > ·) ∧
    (∀ r ∈ newRecords p s, lastSentMessageId s p.inChat ≠ 0 →
      r.input_message_id < lastSentMessageId s p.inChat) ∧
    ∀ b : Bool,
      runOnce { p with cfg := { p.cfg with reverse_messages := b } } s = runOnce p s := by
  obtain ⟨New, heq, hmem, hpw⟩ := runOnce_new p s hh
  have hNr : newRecords p s = New := by
    unfold newRecords
    rw [heq, List.drop_left]
  refine ⟨by rw [hNr]; exact hpw, ?_, fun b => rfl⟩
  intro r hr hne
  rw [hNr] at hr
  rcases (hmem r hr).2.2.2 with h0 | hlt
  · exact absurd h0 hne
  · exact hlt

/-- Witness for C5's amended theorem: the concrete forward-mode run pW
satisfies the hypothesis and yields a strictly decreasing insertion
sequence. -/
theorem C5_insertion_order_witness :
    histOk pW.history ∧
      ((newRecords pW []).map Record.input_message_id).Pairwise (· > ·) :=
  ⟨⟨by decide, by decide⟩, (C5_insertion_order pW [] ⟨by decide, by decide⟩).1⟩

/-- C9: iter_messages filters service messages, so every yielded message
has service = false, and every correlation record inserted by a run
stems from a non-service message of the history. -/
theorem C9_no_service_messages :
    (∀ (store : List Record) (c : Int) (h : List Msg),
      ∀ m ∈ TgChat.iterMessages store c h, m.service = false) ∧
    ∀ (p : RunParams) (s : List Record),
      ∀ r ∈ newRecords p s,
        ∃ m ∈ p.history, m.service = false ∧ r.input_message_id = m.id := by
  constructor
  · intro store c h m hm
    exact ((iterMessages_mem_iff store c h m).mp hm).2.1
  · intro p s r hr
    obtain ⟨pre, suf, hsplit, heq⟩ := processMsgs_split p.fuel p.outChat p.inChat
      (TgChat.initForward p.cfg.forward_messages p.inputProtected) p.envOf
      (TgChat.iterMessages s p.inChat p.history) s
    have hNr : newRecords p s = pre.flatMap
        (stepRecords p.fuel p.outChat p.inChat
          (TgChat.initForward p.cfg.forward_messages p.inputProtected) p.envOf) := by
      unfold newRecords runOnce
      rw [heq, List.drop_left]
    rw [hNr] at hr
    obtain ⟨_, _, m, hm, hid⟩ := flatMap_stepRecords_mem p.fuel p.outChat p.inChat
      (TgChat.initForward p.cfg.forward_messages p.inputProtected) p.envOf pre r hr
    have hmm : m ∈ TgChat.iterMessages s p.inChat p.history := by
      rw [hsplit]; exact List.mem_append_left suf hm
    have hprops := (iterMessages_mem_iff s p.inChat p.history m).mp hmm
    exact ⟨m, hprops.1, hprops.2.1, hid⟩

/-- Witness for C9 at concrete inputs: the message with id 5 yielded by
iteration has service = false, and the concrete record inserted for it
by the run pW stems from a non-service history message. -/
theorem C9_no_service_messages_witness :
    ({ id := 5, text := some "m5" } : Msg).service = false ∧
    ∃ m ∈ pW.history, m.service = false ∧
      (⟨1, 5, 2, 1000⟩ : Record).input_message_id = m.id :=
  ⟨C9_no_service_messages.1 [] 1 pW.history { id := 5, text := some "m5" } (by decide),
    C9_no_service_messages.2 pW [] ⟨1, 5, 2, 1000⟩ (by decide)⟩

/-- C1, evaluation at the failing input: Target.__init__ stores
send_text_messages = false (the default) and a media allow-list, but
send_message never consults either attribute: the text-only message
(id 3, text "hello") is sent and a correlation record is inserted, and a
video message is downloaded, sent and recorded even when the configured
allow-list is only ["photo"]. The claimed filter stage does not exist in
the code. -/
theorem C1_filter_stage_missing :
    (Target.initCfg { media_types := some ["photo"] }).send_text_messages = false ∧
    (Target.initCfg { media_types := some ["photo"] }).media_types = ["photo"] ∧
    (sendMessageF 4 2 envAllOk umTextOnly).1 =
      [Effect.mkdirScratch 3, Effect.sendText (some "hello"),
        Effect.insert ⟨1, 3, 2, 1002⟩] ∧
    "video" ∉ (Target.initCfg { media_types := some ["photo"] }).media_types ∧
    Effect.download 6 true ∈ (sendMessageF 4 2 envAllOk umVideo).1 ∧
    Effect.insert ⟨1, 6, 2, 1001⟩ ∈ (sendMessageF 4 2 envAllOk umVideo).1 :=
  ⟨rfl, rfl, by decide, by decide, by decide, by decide⟩

/-- C2 counterexample: two completed delivery attempts that create the
per-message scratch directory and leave it in place. A text-only
recreate delivery creates the directory (mkdir runs before the media
check), completes successfully, and never removes it; a delivery whose
media download fails returns normally with the directory still
present. -/
theorem C2_counterexample :
    (Effect.mkdirScratch 3 ∈ (sendMessageF 4 2 envAllOk umTextOnly).1 ∧
      (sendMessageF 4 2 envAllOk umTextOnly).2 = none ∧
      scratchDirAfter (sendMessageF 4 2 envAllOk umTextOnly).1 = true) ∧
    (Effect.mkdirScratch 6 ∈ (sendMessageF 4 2 envDownloadFails umVideo).1 ∧
      (sendMessageF 4 2 envDownloadFails umVideo).2 = none ∧
      scratchDirAfter (sendMessageF 4 2 envDownloadFails umVideo).1 = true) := by
  exact ⟨⟨by decide, by decide, by decide⟩, by decide, by decide, by decide⟩

/-- C2 amended: scratch cleanup is not unconditional; it happens exactly
on the media path when the download returned a path and the send
primitive returned normally. On that path, after the attempt the
directory and its files are gone and the correlation row is inserted
(text-only, download-failure and raising-send deliveries leave the
directory behind, as the counterexample shows). -/
theorem C2_cleanup_on_media_success (fuel : Nat) (outChat : Int) (env : Env)
    (um : UMsg) (tg : Msg) (media : Media) (path : String) (sid : Nat)
    (hmsg : um.message = some tg) (hcf : um.can_forward = false)
    (hmed : tg.media = some media) (hdl : env.downloadRes = some path)
    (hsend : env.sendRes = .ok sid) (hfuel : 0 < fuel) :
    scratchDirAfter (sendMessageF fuel outChat env um).1 = false ∧
    scratchFilesAfter (sendMessageF fuel outChat env um).1 = 0 ∧
    recordsOf (sendMessageF fuel outChat env um).1 = [insertSentRecord outChat um sid] ∧
    (sendMessageF fuel outChat env um).2 = none := by
  obtain ⟨n, rfl⟩ : ∃ n, fuel = n + 1 := ⟨fuel - 1, (Nat.succ_pred_eq_of_pos hfuel).symm⟩
  refine ⟨?_, ?_, ?_, ?_⟩ <;>
    simp [sendMessageF, hmsg, hcf, hmed, hdl, hsend, scratchDirAfter,
      scratchFilesAfter, recordsOf]

/-- Witness for C2's amended theorem: the fully successful video
recreate delivery leaves no scratch directory and no files. -/
theorem C2_cleanup_on_media_success_witness :
    scratchDirAfter (sendMessageF 4 2 envAllOk umVideo).1 = false ∧
    scratchFilesAfter (sendMessageF 4 2 envAllOk umVideo).1 = 0 := by
  have h := C2_cleanup_on_media_success 4 2 envAllOk umVideo
    { id := 6, media := some { kind := "video" }, text := some "cap" }
    { kind := "video" } "file.bin" 1001 rfl rfl rfl rfl rfl (by decide)
  exact ⟨h.1, h.2.1⟩

/-- C6 counterexample: with can_forward = true and copy_message
reporting an error, send_message performs only the copy call and the
exception propagates: there is no fallback to the recreate path (no
download, no upload) and no correlation record. -/
theorem C6_counterexample :
    (sendMessageF 4 2 envCopyRaises umForward).1 = [Effect.copy] ∧
    (sendMessageF 4 2 envCopyRaises umForward).2 = some SendExc.raisedCopy ∧
    Effect.download 7 true ∉ (sendMessageF 4 2 envCopyRaises umForward).1 ∧
    recordsOf (sendMessageF 4 2 envCopyRaises umForward).1 = [] := by
  exact ⟨by decide, by decide, by decide, by decide⟩

/-- C6 amended: forwardability is decided before any delivery, in
TgChat.__init__, as requested-and-not-protected, and is never persisted
or modified afterwards; during delivery the copy call has no exception
handling, so a client-reported error makes the whole delivery raise:
the trace is exactly the copy call, with no recreate step and no
inserted record. -/
theorem C6_no_forward_fallback (requested hasProt : Bool) (fuel : Nat) (outChat : Int)
    (env : Env) (um : UMsg) (tg : Msg)
    (hmsg : um.message = some tg) (hcf : um.can_forward = true)
    (hcopy : env.copyRes = .raised) (hfuel : 0 < fuel) :
    TgChat.initForward requested hasProt = (requested && !hasProt) ∧
    (sendMessageF fuel outChat env um).1 = [Effect.copy] ∧
    (sendMessageF fuel outChat env um).2 = some SendExc.raisedCopy := by
  obtain ⟨n, rfl⟩ : ∃ n, fuel = n + 1 := ⟨fuel - 1, (Nat.succ_pred_eq_of_pos hfuel).symm⟩
  exact ⟨rfl, by simp [sendMessageF, hmsg, hcf, hcopy], by simp [sendMessageF, hmsg, hcf, hcopy]⟩

/-- Witness for C6's amended theorem at the concrete forwardable photo
message with a raising copy call. -/
theorem C6_no_forward_fallback_witness :
    TgChat.initForward true false = (true && !false) ∧
    (sendMessageF 4 2 envCopyRaises umForward).1 = [Effect.copy] ∧
    (sendMessageF 4 2 envCopyRaises umForward).2 = some SendExc.raisedCopy :=
  C6_no_forward_fallback true false 4 2 envCopyRaises umForward
    { id := 7, media := some { kind := "photo" }, text := some "x" } rfl rfl rfl (by decide)

/-- C7 counterexample: one delivery of one message whose send primitive
keeps raising ValueError performs 30 media send attempts within 30 units
of fuel and still has not terminated — the code retries through
unbounded recursion, contradicting "is not retried" and "performs a
bounded number of send attempts and always terminates". -/
theorem C7_counterexample :
    countSendMedia (sendMessageF 30 2 envValueError umVideo).1 = 30 ∧
    (sendMessageF 30 2 envValueError umVideo).2 = some SendExc.fuelOut := by
  exact ⟨by decide, by decide⟩

/-- C7 amended: a download failure is skipped with a logged error and no
retry (no send attempt, no record, normal return), as claimed; but a
ValueError from the send primitive recursively re-runs the whole
delivery with no bound: at every fuel n the delivery has made n media
send attempts (re-creating the directory and re-downloading each round)
and still not terminated, so delivery of a persistently failing message
does not terminate. -/
theorem C7_unbounded_send_retry (outChat : Int) (env envV : Env) (um : UMsg) (tg : Msg)
    (media : Media) (path : String)
    (hmsg : um.message = some tg) (hcf : um.can_forward = false)
    (hmed : tg.media = some media) (hdlf : env.downloadRes = none)
    (hdl : envV.downloadRes = some path) (hsend : envV.sendRes = .valueError) :
    (∀ fuel, 0 < fuel →
      (sendMessageF fuel outChat env um).1 =
        [Effect.mkdirScratch tg.id, Effect.download tg.id false] ∧
      (sendMessageF fuel outChat env um).2 = none ∧
      countSendMedia (sendMessageF fuel outChat env um).1 = 0) ∧
    ∀ fuel, countSendMedia (sendMessageF fuel outChat envV um).1 = fuel ∧
      (sendMessageF fuel outChat envV um).2 = some SendExc.fuelOut := by
  constructor
  · intro fuel hf
    obtain ⟨n, rfl⟩ : ∃ n, fuel = n + 1 := ⟨fuel - 1, (Nat.succ_pred_eq_of_pos hf).symm⟩
    refine ⟨?_, ?_, ?_⟩ <;>
      simp [sendMessageF, hmsg, hcf, hmed, hdlf, countSendMedia]
  · intro fuel
    induction fuel with
    | zero => exact ⟨by simp [sendMessageF, countSendMedia], rfl⟩
    | succ n ih =>
      have h1 : (sendMessageF (n + 1) outChat envV um).1 =
          [Effect.mkdirScratch tg.id, Effect.download tg.id true,
            Effect.sendMedia media.kind tg.text (sendFileName media.kind path)] ++
            (sendMessageF n outChat envV um).1 := by
        simp [sendMessageF, hmsg, hcf, hmed, hdl, hsend]
      have h2 : (sendMessageF (n + 1) outChat envV um).2 =
          (sendMessageF n outChat envV um).2 := by
        simp [sendMessageF, hmsg, hcf, hmed, hdl, hsend]
      constructor
      · rw [h1]
        unfold countSendMedia
        rw [List.countP_append]
        unfold countSendMedia at ih
        rw [ih.1]
        simp [List.countP_cons]
        omega
      · rw [h2, ih.2]

/-- Witness for C7's amended theorem: the download-failure delivery
returns normally with no send attempt, and the persistently failing send
makes 5 attempts in 5 units of fuel. -/
theorem C7_unbounded_send_retry_witness :
    ((sendMessageF 4 2 envDownloadFails umVideo).2 = none ∧
      countSendMedia (sendMessageF 4 2 envDownloadFails umVideo).1 = 0) ∧
    countSendMedia (sendMessageF 5 2 envValueError umVideo).1 = 5 := by
  have h := C7_unbounded_send_retry 2 envDownloadFails envValueError umVideo
    { id := 6, media := some { kind := "video" }, text := some "cap" }
    { kind := "video" } "file.bin" rfl rfl rfl rfl rfl rfl
  exact ⟨⟨(h.1 4 (by decide)).2.1, (h.1 4 (by decide)).2.2⟩, (h.2 5).1⟩

/-- C8 counterexample: the recreate upload of a sticker is invoked with
caption = the message's text (here "hi"), not without a caption; only
file_name is omitted for stickers. -/
theorem C8_counterexample :
    Effect.sendMedia "sticker" (some "hi") none ∈ (sendMessageF 4 2 envAllOk umSticker).1 := by
  decide

/-- C8 amended: every media upload performed by the recreate path passes
caption = tg_message.text regardless of the media kind — stickers
included — and omits file_name exactly when the kind is photo, audio or
sticker. -/
theorem C8_caption_always_text (outChat : Int) (env : Env) (um : UMsg) (tg : Msg)
    (media : Media) (hmsg : um.message = some tg) (hmed : tg.media = some media) :
    ∀ (fuel : Nat) (k : String) (cap fn : Option String),
      Effect.sendMedia k cap fn ∈ (sendMessageF fuel outChat env um).1 →
      k = media.kind ∧ cap = tg.text ∧
        (fn = none ↔ media.kind ∈ ["photo", "audio", "sticker"]) := by
  intro fuel
  induction fuel with
  | zero => intro k cap fn hmem; simp [sendMessageF] at hmem
  | succ n ih =>
    intro k cap fn hmem
    cases hcf : um.can_forward with
    | true =>
      cases hc : env.copyRes with
      | raised => simp [sendMessageF, hmsg, hcf, hc] at hmem
      | notMessage => simp [sendMessageF, hmsg, hcf, hc] at hmem
      | ok sid => simp [sendMessageF, hmsg, hcf, hc] at hmem
    | false =>
      cases hdl : env.downloadRes with
      | none => simp [sendMessageF, hmsg, hcf, hmed, hdl] at hmem
      | some path =>
        cases hs : env.sendRes with
        | ok sid =>
          have h1 : (sendMessageF (n + 1) outChat env um).1 =
              [Effect.mkdirScratch tg.id, Effect.download tg.id true,
                Effect.sendMedia media.kind tg.text (sendFileName media.kind path),
                Effect.removeScratchFiles tg.id, Effect.rmdirScratch tg.id,
                Effect.insert (insertSentRecord outChat um sid)] := by
            simp [sendMessageF, hmsg, hcf, hmed, hdl, hs]
          rw [h1] at hmem
          simp only [List.mem_cons, List.not_mem_nil, or_false] at hmem
          rcases hmem with h | h | h | h | h | h <;>
            first
            | (cases h; exact ⟨rfl, rfl, sendFileName_none_iff media.kind path⟩)
            | cases h
        | raised =>
          have h1 : (sendMessageF (n + 1) outChat env um).1 =
              [Effect.mkdirScratch tg.id, Effect.download tg.id true,
                Effect.sendMedia media.kind tg.text (sendFileName media.kind path)] := by
            simp [sendMessageF, hmsg, hcf, hmed, hdl, hs]
          rw [h1] at hmem
          simp only [List.mem_cons, List.not_mem_nil, or_false] at hmem
          rcases hmem with h | h | h <;>
            first
            | (cases h; exact ⟨rfl, rfl, sendFileName_none_iff media.kind path⟩)
            | cases h
        | valueError =>
          have h1 : (sendMessageF (n + 1) outChat env um).1 =
              [Effect.mkdirScratch tg.id, Effect.download tg.id true,
                Effect.sendMedia media.kind tg.text (sendFileName media.kind path)] ++
                (sendMessageF n outChat env um).1 := by
            simp [sendMessageF, hmsg, hcf, hmed, hdl, hs]
          rw [h1, List.mem_append] at hmem
          rcases hmem with hmem | hmem
          · simp only [List.mem_cons, List.not_mem_nil, or_false] at hmem
            rcases hmem with h | h | h <;>
              first
              | (cases h; exact ⟨rfl, rfl, sendFileName_none_iff media.kind path⟩)
              | cases h
          · exact ih k cap fn hmem

/-- Witness for C8's amended theorem: the sticker upload observed in the
trace carries the message text as caption and no file_name. -/
theorem C8_caption_always_text_witness :
    "sticker" = ({ kind := "sticker" } : Media).kind ∧
    (some "hi" : Option String) =
      ({ id := 9, media := some { kind := "sticker" }, text := some "hi" } : Msg).text ∧
    ((none : Option String) = none ↔
      ({ kind := "sticker" } : Media).kind ∈ ["photo", "audio", "sticker"]) :=
  C8_caption_always_text 2 envAllOk umSticker
    { id := 9, media := some { kind := "sticker" }, text := some "hi" }
    { kind := "sticker" } rfl rfl 4 "sticker" (some "hi") none (by decide)

/-- C10: archive media download is idempotent. When a file already
exists at the computed archive path, DumpChat.send_message performs no
download call and records the existing path; and for any starting
filesystem, delivering the same message twice (with downloads that
materialize their file) performs at most one download in total. -/
theorem C10_archive_download_idempotent :
    (∀ (root : String) (chatId : Int) (fs : List String) (rows : List DumpRow)
      (um : UMsg) (tg : Msg) (media : Media) (dc : Bool),
      um.message = some tg → tg.media = some media → dumpMediaPath root tg.id ∈ fs →
      DumpChat.sendMessage dc root chatId fs rows um =
        (fs, rows ++ [⟨chatId, tg.id, tg.text, some (dumpMediaPath root tg.id)⟩], 0,
          false)) ∧
    ∀ (root : String) (chatId : Int) (fs : List String) (rows : List DumpRow) (um : UMsg),
      (DumpChat.sendMessage true root chatId fs rows um).2.2.1 +
        (DumpChat.sendMessage true root chatId
          (DumpChat.sendMessage true root chatId fs rows um).1
          (DumpChat.sendMessage true root chatId fs rows um).2.1 um).2.2.1 ≤ 1 := by
  constructor
  · intro root chatId fs rows um tg media dc hmsg hmed hin
    simp [DumpChat.sendMessage, DumpChat.downloadMedia, hmsg, hmed, hin]
  · intro root chatId fs rows um
    cases hmsg : um.message with
    | none => simp [DumpChat.sendMessage, hmsg]
    | some tg =>
      cases hmed : tg.media with
      | none => simp [DumpChat.sendMessage, DumpChat.downloadMedia, hmsg, hmed]
      | some media =>
        by_cases hin : dumpMediaPath root tg.id ∈ fs
        · simp [DumpChat.sendMessage, DumpChat.downloadMedia, hmsg, hmed, hin]
        · have h1 : DumpChat.sendMessage true root chatId fs rows um =
              (dumpMediaPath root tg.id :: fs, rows, 1, true) := by
            simp [DumpChat.sendMessage, DumpChat.downloadMedia, hmsg, hmed, hin]
          rw [h1]
          have hin2 : dumpMediaPath root tg.id ∈ dumpMediaPath root tg.id :: fs :=
            List.mem_cons_self _ _
          simp [DumpChat.sendMessage, DumpChat.downloadMedia, hmsg, hmed, hin2]

/-- Witness for C10 at a concrete archive: delivering the video message
with its file already present downloads nothing and records the path,
and delivering it twice from an empty filesystem downloads at most
once. -/
theorem C10_archive_download_idempotent_witness :
    DumpChat.sendMessage true "chats/d" 1 ["chats/d/6/Unknown.jpg"] [] umVideo =
      (["chats/d/6/Unknown.jpg"],
        [⟨1, 6, some "cap", some "chats/d/6/Unknown.jpg"⟩], 0, false) ∧
    (DumpChat.sendMessage true "chats/d" 1 [] [] umVideo).2.2.1 +
      (DumpChat.sendMessage true "chats/d" 1
        (DumpChat.sendMessage true "chats/d" 1 [] [] umVideo).1
        (DumpChat.sendMessage true "chats/d" 1 [] [] umVideo).2.1 umVideo).2.2.1 ≤ 1 :=
  ⟨C10_archive_download_idempotent.1 "chats/d" 1 ["chats/d/6/Unknown.jpg"] [] umVideo
      { id := 6, media := some { kind := "video" }, text := some "cap" }
      { kind := "video" } true rfl rfl (by decide),
    C10_archive_download_idempotent.2 "chats/d" 1 [] [] umVideo⟩

end Clonechat
